import Mathlib

/-!
Shallow embedding of the fine-art tokenization contract (a cw721-base
variant) from `src/execute.rs` and `src/error.rs`.

Addresses are modelled as strings; the host's address validator
(`deps.api.addr_validate`) is an external collaborator, so every operation
is parameterized by a `validate : String → Option Addr` function: `none`
models a validation failure (which the contract surfaces as a `Std` error).

Storage maps (`tokens`, `operators`) are modelled as association lists with
overwrite-on-save semantics; `Map::load` failure on an absent key is the
`Std` error case.  Machine integers (`u64` counters, coin amounts) are
modelled as `Nat`: the counters only ever grow by 1 per call and amounts are
only compared for equality, so overflow is not reachable in the properties
below.
-/

namespace FineArt

/-- Bech32 addresses are opaque strings here; validation is external. -/
abbrev Addr := String

/-- `cosmwasm_std::Coin`: a denomination and an integer amount. -/
structure Coin where
  denom : String
  amount : Nat
deriving DecidableEq, Repr

/-- `cosmwasm_std::BlockInfo`: the clock data expirations are tested against. -/
structure BlockInfo where
  height : Nat
  time : Nat
deriving DecidableEq, Repr

/-- `cw_utils::Expiration`: block height, timestamp, or never. -/
inductive Expiration where
  | atHeight (h : Nat)
  | atTime (t : Nat)
  | never
deriving DecidableEq, Repr

/-- The `Default` impl of `Expiration` is `Never`. -/
def Expiration.default : Expiration := .never

/-- `Expiration::is_expired(&self, block)`. -/
def Expiration.is_expired : Expiration → BlockInfo → Bool
  | .atHeight h, block => decide (h ≤ block.height)
  | .atTime t, block => decide (t ≤ block.time)
  | .never, _ => false

/-- `cw721::Approval { spender, expires }`. -/
structure Approval where
  spender : Addr
  expires : Expiration
deriving DecidableEq, Repr

/-- `Approval::is_expired` delegates to the expiration. -/
def Approval.is_expired (a : Approval) (block : BlockInfo) : Bool :=
  a.expires.is_expired block

/-- `TokenInfo<T>` from `state.rs`, as used by `execute.rs`. -/
structure TokenInfo (Ext : Type) where
  owner : Addr
  approvals : List Approval
  token_uri : String
  extension : Ext
deriving DecidableEq, Repr

/-- `ContractError` from `src/error.rs` (the `Std` passthrough keeps only a
message, as the properties never inspect it). -/
inductive ContractError where
  | Std (msg : String)
  | Unauthorized
  | Claimed
  | Expired
  | ApprovalNotFound (spender : String)
  | MintingDisabled
  | MaxMintsReached
  | IncorrectPayment
  | InsufficientFunds
deriving DecidableEq, Repr

/-- `cosmwasm_std::MessageInfo`: the caller and the attached funds. -/
structure MessageInfo where
  sender : Addr
  funds : List Coin
deriving DecidableEq, Repr

/-- The receiver-notification message emitted by `send_nft`
(`Cw721ReceiveMsg { sender, token_id, msg }` wrapped into a wasm-execute
message addressed to `contract`). -/
structure ReceiveNotice where
  contract : String
  sender : String
  token_id : String
  msg : String
deriving DecidableEq, Repr

/-- The part of `cosmwasm_std::Response` the contract actually populates:
outgoing messages and attributes. -/
structure Response where
  messages : List ReceiveNotice
  attributes : List (String × String)
deriving DecidableEq, Repr

/-- An association-list map with overwrite-on-save semantics, standing in for
a `cw-storage-plus` `Map`. -/
def KVMap (κ α : Type) : Type := List (κ × α)

namespace KVMap

variable {κ α : Type} [DecidableEq κ]

/-- `Map::may_load`: the value at a key, if present. -/
def get : KVMap κ α → κ → Option α
  | [], _ => none
  | (k, v) :: rest, key => if k = key then some v else get rest key

/-- `Map::remove`: drop the value at a key. -/
def remove : KVMap κ α → κ → KVMap κ α
  | [], _ => []
  | (k, v) :: rest, key =>
    if k = key then remove rest key else (k, v) :: remove rest key

/-- `Map::save`: overwrite the value at a key. -/
def set (m : KVMap κ α) (key : κ) (v : α) : KVMap κ α :=
  (key, v) :: m.remove key

end KVMap

/-- `cw721::ContractInfoResponse { name, symbol }` saved at instantiation. -/
structure ContractInfo where
  name : String
  symbol : String
deriving DecidableEq, Repr

/-- The whole persisted state of the contract: the `Item`s and `Map`s declared
in `state.rs` and written by `execute.rs`.  `token_count` is the mint counter
(next id and cap-check input); `live_count` is the live-record view that
burn decrements (see `update_token_count`). -/
structure ContractState (Ext : Type) where
  contract_info : ContractInfo
  minter : Addr
  minting_allowed : Bool
  max_mints : Nat
  mint_price : Coin
  token_uri : String
  token_count : Nat
  live_count : Nat
  tokens : KVMap String (TokenInfo Ext)
  operators : KVMap (Addr × Addr) Expiration

variable {Ext : Type}

/-- Modelled from the spec: `update_token_count` lives in `state.rs`, which is
not among the provided sources.  Per the spec, token ids come from the
running mint counter, which burns never decrement ("burns do not decrement
the id sequence context, only the live count tracked for the cap check";
burn "decrements the live-count view used for reporting but does not reuse
the burned id"), so `increment = true` (used by mint) bumps both counters and
`increment = false` (used by burn) decrements only the live-count view. -/
def update_token_count (st : ContractState Ext) (increment : Bool) :
    ContractState Ext :=
  if increment then
    { st with token_count := st.token_count + 1, live_count := st.live_count + 1 }
  else
    { st with live_count := st.live_count - 1 }

/-- `check_can_approve` (`execute.rs:399`): owner, or a live operator grant. -/
def check_can_approve (st : ContractState Ext) (env : BlockInfo)
    (info : MessageInfo) (token : TokenInfo Ext) : Except ContractError Unit :=
  if token.owner = info.sender then .ok ()
  else
    match st.operators.get (token.owner, info.sender) with
    | some ex => if ex.is_expired env then .error .Unauthorized else .ok ()
    | none => .error .Unauthorized

/-- `check_can_send` (`execute.rs:427`): owner, a live per-token approval, or
a live operator grant. -/
def check_can_send (st : ContractState Ext) (env : BlockInfo)
    (info : MessageInfo) (token : TokenInfo Ext) : Except ContractError Unit :=
  if token.owner = info.sender then .ok ()
  else if token.approvals.any
      (fun apr => apr.spender == info.sender && ! apr.is_expired env) then
    .ok ()
  else
    match st.operators.get (token.owner, info.sender) with
    | some ex => if ex.is_expired env then .error .Unauthorized else .ok ()
    | none => .error .Unauthorized

/-- An empty map (fresh storage). -/
def KVMap.empty {κ α : Type} : KVMap κ α := ([] : List (κ × α))

/-- `InstantiateMsg` from `msg.rs`, as read by `instantiate`. -/
structure InstantiateMsg where
  name : String
  symbol : String
  minter : String
  max_mints : Nat
  mint_price : Coin
  token_uri : String
deriving DecidableEq, Repr

/-- `MintMsg<T>` from `msg.rs`: `mint` reads only `owner` and `extension`. -/
structure MintMsg (Ext : Type) where
  owner : String
  extension : Ext
deriving DecidableEq, Repr

/-- `Coin`'s `Display` ("{amount}{denom}"), used only in attributes. -/
def Coin.toStr (c : Coin) : String := Nat.repr c.amount ++ c.denom

/-- `instantiate` (`execute.rs:21`): validates the minter and seeds every
config item; minting starts allowed and the counters at zero (the
`token_count` getter defaults an unset counter to 0).  The one-time version
registrar write is out of scope. -/
def instantiate (validate : String → Option Addr) (msg : InstantiateMsg) :
    Option (ContractState Ext) :=
  match validate msg.minter with
  | none => none
  | some minter =>
    some { contract_info := ⟨msg.name, msg.symbol⟩
           minter := minter
           minting_allowed := true
           max_mints := msg.max_mints
           mint_price := msg.mint_price
           token_uri := msg.token_uri
           token_count := 0
           live_count := 0
           tokens := KVMap.empty
           operators := KVMap.empty }

/-- `mint` (`execute.rs:89`): minting-enabled check, cap check, exact-payment
check (`info.funds.len() != 1 || info.funds[0] != price`), then validate the
owner, insert-if-absent under the stringified counter, and bump the counter. -/
def mint (validate : String → Option Addr) (st : ContractState Ext)
    (info : MessageInfo) (msg : MintMsg Ext) :
    Except ContractError (ContractState Ext × Response) :=
  if ! st.minting_allowed then .error .MintingDisabled
  else if st.max_mints ≤ st.token_count then .error .MaxMintsReached
  else
    match info.funds with
    | [coin] =>
      if coin ≠ st.mint_price then .error .IncorrectPayment
      else
        match validate msg.owner with
        | none => .error (.Std "invalid owner address")
        | some owner =>
          let token : TokenInfo Ext :=
            { owner := owner, approvals := [], token_uri := st.token_uri,
              extension := msg.extension }
          match st.tokens.get (Nat.repr st.token_count) with
          | some _ => .error .Claimed
          | none =>
            let st' :=
              { st with tokens := st.tokens.set (Nat.repr st.token_count) token }
            .ok (update_token_count st' true,
              ⟨[], [("action", "mint"), ("minter", info.sender),
                    ("token_id", Nat.repr st.token_count)]⟩)
    | _ => .error .IncorrectPayment

/-- `set_mint_config` (`execute.rs:141`): minter-only; overwrites price and
cap unconditionally. -/
def set_mint_config (st : ContractState Ext) (info : MessageInfo)
    (price : Coin) (max_mints : Nat) :
    Except ContractError (ContractState Ext × Response) :=
  if info.sender ≠ st.minter then .error .Unauthorized
  else
    .ok ({ st with mint_price := price, max_mints := max_mints },
      ⟨[], [("action", "set_mint_config"), ("price", price.toStr),
            ("max_mints", Nat.repr max_mints)]⟩)

/-- `toggle_minting` (`execute.rs:162`): minter-only; negates the flag. -/
def toggle_minting (st : ContractState Ext) (info : MessageInfo) :
    Except ContractError (ContractState Ext × Response) :=
  if info.sender ≠ st.minter then .error .Unauthorized
  else
    .ok ({ st with minting_allowed := ! st.minting_allowed },
      ⟨[], [("action", "toggle_minting"),
            ("minting_allowed", toString (! st.minting_allowed))]⟩)

/-- `_update_approvals` (`execute.rs:356`): load the token, require
`check_can_approve`, drop any entry for the spender, and when adding reject
an already-expired expiration before appending the new entry. -/
def _update_approvals (validate : String → Option Addr) (st : ContractState Ext)
    (env : BlockInfo) (info : MessageInfo) (spender : String) (token_id : String)
    (add : Bool) (expires : Option Expiration) :
    Except ContractError (ContractState Ext × TokenInfo Ext) :=
  match st.tokens.get token_id with
  | none => .error (.Std "token not found")
  | some token =>
    match check_can_approve st env info token with
    | .error e => .error e
    | .ok () =>
      match validate spender with
      | none => .error (.Std "invalid spender address")
      | some spender_addr =>
        let approvals :=
          token.approvals.filter (fun apr => ! (apr.spender == spender_addr))
        if add then
          let ex := expires.getD Expiration.default
          if ex.is_expired env then .error .Expired
          else
            let token' :=
              { token with approvals := approvals ++ [⟨spender_addr, ex⟩] }
            .ok ({ st with tokens := st.tokens.set token_id token' }, token')
        else
          let token' := { token with approvals := approvals }
          .ok ({ st with tokens := st.tokens.set token_id token' }, token')

/-- `approve` (`execute.rs:234`). -/
def approve (validate : String → Option Addr) (st : ContractState Ext)
    (env : BlockInfo) (info : MessageInfo) (spender : String) (token_id : String)
    (expires : Option Expiration) :
    Except ContractError (ContractState Ext × Response) :=
  match _update_approvals validate st env info spender token_id true expires with
  | .error e => .error e
  | .ok (st', _) =>
    .ok (st', ⟨[], [("action", "approve"), ("sender", info.sender),
                    ("spender", spender), ("token_id", token_id)]⟩)

/-- `revoke` (`execute.rs:252`). -/
def revoke (validate : String → Option Addr) (st : ContractState Ext)
    (env : BlockInfo) (info : MessageInfo) (spender : String) (token_id : String) :
    Except ContractError (ContractState Ext × Response) :=
  match _update_approvals validate st env info spender token_id false none with
  | .error e => .error e
  | .ok (st', _) =>
    .ok (st', ⟨[], [("action", "revoke"), ("sender", info.sender),
                    ("spender", spender), ("token_id", token_id)]⟩)

/-- `approve_all` (`execute.rs:269`): reject an already-expired expiration,
then overwrite the `(sender, operator)` grant. -/
def approve_all (validate : String → Option Addr) (st : ContractState Ext)
    (env : BlockInfo) (info : MessageInfo) (operator : String)
    (expires : Option Expiration) :
    Except ContractError (ContractState Ext × Response) :=
  let ex := expires.getD Expiration.default
  if ex.is_expired env then .error .Expired
  else
    match validate operator with
    | none => .error (.Std "invalid operator address")
    | some operator_addr =>
      .ok ({ st with operators := st.operators.set (info.sender, operator_addr) ex },
        ⟨[], [("action", "approve_all"), ("sender", info.sender),
              ("operator", operator)]⟩)

/-- `revoke_all` (`execute.rs:294`): remove the `(sender, operator)` grant. -/
def revoke_all (validate : String → Option Addr) (st : ContractState Ext)
    (info : MessageInfo) (operator : String) :
    Except ContractError (ContractState Ext × Response) :=
  match validate operator with
  | none => .error (.Std "invalid operator address")
  | some operator_addr =>
    .ok ({ st with operators := st.operators.remove (info.sender, operator_addr) },
      ⟨[], [("action", "revoke_all"), ("sender", info.sender),
            ("operator", operator)]⟩)

/-- `_transfer_nft` (`execute.rs:337`): load the token, require
`check_can_send`, validate the recipient, set the owner and clear the
approvals. -/
def _transfer_nft (validate : String → Option Addr) (st : ContractState Ext)
    (env : BlockInfo) (info : MessageInfo) (recipient : String)
    (token_id : String) :
    Except ContractError (ContractState Ext × TokenInfo Ext) :=
  match st.tokens.get token_id with
  | none => .error (.Std "token not found")
  | some token =>
    match check_can_send st env info token with
    | .error e => .error e
    | .ok () =>
      match validate recipient with
      | none => .error (.Std "invalid recipient address")
      | some recipient_addr =>
        let token' := { token with owner := recipient_addr, approvals := [] }
        .ok ({ st with tokens := st.tokens.set token_id token' }, token')

/-- `transfer_nft` (`execute.rs:190`). -/
def transfer_nft (validate : String → Option Addr) (st : ContractState Ext)
    (env : BlockInfo) (info : MessageInfo) (recipient : String)
    (token_id : String) :
    Except ContractError (ContractState Ext × Response) :=
  match _transfer_nft validate st env info recipient token_id with
  | .error e => .error e
  | .ok (st', _) =>
    .ok (st', ⟨[], [("action", "transfer_nft"), ("sender", info.sender),
                    ("recipient", recipient), ("token_id", token_id)]⟩)

/-- `send_nft` (`execute.rs:207`): transfer to the destination contract, then
emit the `Cw721ReceiveMsg {sender, token_id, msg}` notification addressed to
it. -/
def send_nft (validate : String → Option Addr) (st : ContractState Ext)
    (env : BlockInfo) (info : MessageInfo) (contract : String)
    (token_id : String) (msg : String) :
    Except ContractError (ContractState Ext × Response) :=
  match _transfer_nft validate st env info contract token_id with
  | .error e => .error e
  | .ok (st', _) =>
    .ok (st', ⟨[⟨contract, info.sender, token_id, msg⟩],
               [("action", "send_nft"), ("sender", info.sender),
                ("recipient", contract), ("token_id", token_id)]⟩)

/-- `burn` (`execute.rs:311`): load the token, require `check_can_send`,
remove the record and update the counter with `increment = false`. -/
def burn (validate : String → Option Addr) (st : ContractState Ext)
    (env : BlockInfo) (info : MessageInfo) (token_id : String) :
    Except ContractError (ContractState Ext × Response) :=
  match st.tokens.get token_id with
  | none => .error (.Std "token not found")
  | some token =>
    match check_can_send st env info token with
    | .error e => .error e
    | .ok () =>
      let st' := { st with tokens := st.tokens.remove token_id }
      .ok (update_token_count st' false,
        ⟨[], [("action", "burn"), ("sender", info.sender),
              ("token_id", token_id)]⟩)

/-- `ExecuteMsg<T>` from `msg.rs`, with the variants `execute` dispatches. -/
inductive ExecuteMsg (Ext : Type) where
  | Mint (msg : MintMsg Ext)
  | SetMintConfig (price : Coin) (max_mints : Nat)
  | ToggleMinting
  | Approve (spender : String) (token_id : String) (expires : Option Expiration)
  | Revoke (spender : String) (token_id : String)
  | ApproveAll (operator : String) (expires : Option Expiration)
  | RevokeAll (operator : String)
  | TransferNft (recipient : String) (token_id : String)
  | SendNft (contract : String) (token_id : String) (msg : String)
  | Burn (token_id : String)

/-- `execute` (`execute.rs:44`): dispatch on the message kind. -/
def execute (validate : String → Option Addr) (st : ContractState Ext)
    (env : BlockInfo) (info : MessageInfo) (msg : ExecuteMsg Ext) :
    Except ContractError (ContractState Ext × Response) :=
  match msg with
  | .Mint m => mint validate st info m
  | .SetMintConfig price max_mints => set_mint_config st info price max_mints
  | .ToggleMinting => toggle_minting st info
  | .Approve spender token_id expires =>
    approve validate st env info spender token_id expires
  | .Revoke spender token_id => revoke validate st env info spender token_id
  | .ApproveAll operator expires =>
    approve_all validate st env info operator expires
  | .RevokeAll operator => revoke_all validate st info operator
  | .TransferNft recipient token_id =>
    transfer_nft validate st env info recipient token_id
  | .SendNft contract token_id msg =>
    send_nft validate st env info contract token_id msg
  | .Burn token_id => burn validate st env info token_id

/-- Spec-worded send authorization ("can-send(caller, token)"): true if the
caller is the owner; else true if `token.approvals` has a not-expired entry
for the caller; else true if a not-expired OperatorGrant exists for
`(token.owner, caller)`; else false.  Written from the spec for comparison
with `check_can_send`. -/
def can_send_spec (st : ContractState Ext) (env : BlockInfo) (caller : Addr)
    (token : TokenInfo Ext) : Bool :=
  caller == token.owner
  || token.approvals.any (fun a => a.spender == caller && ! a.expires.is_expired env)
  || (match st.operators.get (token.owner, caller) with
      | some ex => ! ex.is_expired env
      | none => false)

/-- Spec-worded approve authorization ("can-approve(caller, token)"): true if
the caller is the owner; else true if a not-expired OperatorGrant exists for
`(token.owner, caller)`; else false.  Written from the spec for comparison
with `check_can_approve`. -/
def can_approve_spec (st : ContractState Ext) (env : BlockInfo) (caller : Addr)
    (token : TokenInfo Ext) : Bool :=
  caller == token.owner
  || (match st.operators.get (token.owner, caller) with
      | some ex => ! ex.is_expired env
      | none => false)

/-- The two declared-but-unused error kinds are never produced. -/
def notReserved (e : ContractError) : Prop :=
  (∀ s, e ≠ .ApprovalNotFound s) ∧ e ≠ .InsufficientFunds

/-- No stored token has two approvals for the same spender. -/
def approvalsUnique (st : ContractState Ext) : Prop :=
  ∀ k t, st.tokens.get k = some t → (t.approvals.map Approval.spender).Nodup

/-- One external call: the block data, the caller/funds, and the message. -/
structure Step (Ext : Type) where
  env : BlockInfo
  info : MessageInfo
  msg : ExecuteMsg Ext

/-- Whether a message is a mint. -/
def isMint : ExecuteMsg Ext → Bool
  | .Mint _ => true
  | _ => false

/-- The token id a mint reports in its response (empty for other messages):
the value of the `token_id` attribute. -/
def mintIds (msg : ExecuteMsg Ext) (r : Response) : List String :=
  match msg with
  | .Mint _ => ((r.attributes.find? (fun a => a.1 == "token_id")).map (·.2)).toList
  | _ => []

/-- Run a sequence of calls in which every call succeeds, collecting the ids
reported by the mints; `none` when some call fails. -/
def runTraceIds (validate : String → Option Addr) :
    ContractState Ext → List (Step Ext) →
    Option (ContractState Ext × List String)
  | st, [] => some (st, [])
  | st, s :: rest =>
    match execute validate st s.env s.info s.msg with
    | .error _ => none
    | .ok (st', r) =>
      match runTraceIds validate st' rest with
      | none => none
      | some (stF, ids) => some (stF, mintIds s.msg r ++ ids)

/-- The final state of an all-successful sequence of calls. -/
def runTrace (validate : String → Option Addr) (st : ContractState Ext)
    (steps : List (Step Ext)) : Option (ContractState Ext) :=
  (runTraceIds validate st steps).map (·.1)

/-- How many of the calls are mints. -/
def countMints (steps : List (Step Ext)) : Nat :=
  steps.countP (fun s => isMint s.msg)

/-! ### Concrete fixtures used by the witnesses -/

/-- A validator that accepts every address string unchanged. -/
def idValidate : String → Option Addr := fun s => some s

/-- A sample token owned by alice with one approval for bob. -/
def sampleToken : TokenInfo Unit :=
  ⟨"alice", [⟨"bob", Expiration.never⟩], "ipfs://art", ()⟩

/-- A sample contract state holding `sampleToken` under id "0". -/
def sampleState : ContractState Unit :=
  { contract_info := ⟨"FineArt", "ART"⟩
    minter := "admin"
    minting_allowed := true
    max_mints := 5
    mint_price := ⟨"uom", 10⟩
    token_uri := "ipfs://art"
    token_count := 1
    live_count := 1
    tokens := [("0", sampleToken)]
    operators := [] }

/-- A sample block. -/
def sampleEnv : BlockInfo := ⟨100, 1000⟩

/-- Instantiation data used by the trace witnesses. -/
def traceImsg : InstantiateMsg := ⟨"FineArt", "ART", "admin", 5, ⟨"uom", 10⟩, "ipfs://art"⟩

/-- A trace witnessing id assignment: mint, burn the minted token, mint
again — the second mint gets the next id, not the burned one. -/
def c1Steps : List (Step Unit) :=
  [⟨⟨1, 1⟩, ⟨"dave", [⟨"uom", 10⟩]⟩, .Mint ⟨"carol", ()⟩⟩,
   ⟨⟨2, 2⟩, ⟨"carol", []⟩, .Burn "0"⟩,
   ⟨⟨3, 3⟩, ⟨"dave", [⟨"uom", 10⟩]⟩, .Mint ⟨"carol", ()⟩⟩]

/-- A trace approving the same spender twice on the same token. -/
def c6Steps : List (Step Unit) :=
  [⟨⟨1, 1⟩, ⟨"dave", [⟨"uom", 10⟩]⟩, .Mint ⟨"carol", ()⟩⟩,
   ⟨⟨2, 2⟩, ⟨"carol", []⟩, .Approve "dave" "0" none⟩,
   ⟨⟨3, 3⟩, ⟨"carol", []⟩, .Approve "dave" "0" (some (.atHeight 999))⟩]

/-! ### Storage map lemmas -/

namespace KVMap

variable {κ α : Type} [DecidableEq κ]

theorem get_remove_self (m : KVMap κ α) (k : κ) :
    (m.remove k).get k = none := by
  induction m with
  | nil => rfl
  | cons p rest ih =>
    obtain ⟨pk, pv⟩ := p
    by_cases hp : pk = k <;> simp [remove, get, hp, ih]

theorem get_remove_ne (m : KVMap κ α) (k j : κ) (h : j ≠ k) :
    (m.remove k).get j = m.get j := by
  induction m with
  | nil => rfl
  | cons p rest ih =>
    obtain ⟨pk, pv⟩ := p
    by_cases hp : pk = k
    · subst hp
      simp [remove, get, ih, Ne.symm h]
    · simp [remove, get, hp, ih]

theorem get_set_self (m : KVMap κ α) (k : κ) (v : α) :
    (m.set k v).get k = some v := by
  simp [get, set]

theorem get_set_ne (m : KVMap κ α) (k j : κ) (v : α) (h : j ≠ k) :
    (m.set k v).get j = m.get j := by
  simp only [set, get, if_neg (Ne.symm h)]
  exact get_remove_ne m k j h

end KVMap

/-! ### The authorization checks, as total functions of the spec predicates -/

theorem check_can_approve_eq (st : ContractState Ext) (env : BlockInfo)
    (info : MessageInfo) (token : TokenInfo Ext) :
    check_can_approve st env info token =
      (if can_approve_spec st env info.sender token
        then .ok () else .error .Unauthorized) := by
  unfold check_can_approve can_approve_spec
  by_cases h1 : token.owner = info.sender
  · simp [h1]
  · have h1b : (info.sender == token.owner) = false := by
      simp [Ne.symm h1]
    cases hop : st.operators.get (token.owner, info.sender) with
    | none => simp [h1, h1b, hop]
    | some ex =>
      by_cases hexp : ex.is_expired env = true
      · simp [h1, h1b, hop, hexp]
      · have hexp2 : ex.is_expired env = false := by simpa using hexp
        simp [h1, h1b, hop, hexp2]

theorem check_can_send_eq (st : ContractState Ext) (env : BlockInfo)
    (info : MessageInfo) (token : TokenInfo Ext) :
    check_can_send st env info token =
      (if can_send_spec st env info.sender token
        then .ok () else .error .Unauthorized) := by
  unfold check_can_send can_send_spec
  by_cases h1 : token.owner = info.sender
  · simp [h1]
  · have h1b : (info.sender == token.owner) = false := by
      simp [Ne.symm h1]
    by_cases h2 : token.approvals.any
        (fun apr => apr.spender == info.sender && ! apr.is_expired env) = true
    · simp [h1, h1b, h2, Approval.is_expired] at h2 ⊢
      simp [h2]
    · have h2b : token.approvals.any
          (fun apr => apr.spender == info.sender && ! apr.is_expired env)
            = false := by simpa using h2
      simp only [Approval.is_expired] at h2b
      cases hop : st.operators.get (token.owner, info.sender) with
      | none => simp [h1, h1b, h2b, hop, Approval.is_expired]
      | some ex =>
        by_cases hexp : ex.is_expired env = true
        · simp [h1, h1b, h2b, hop, hexp, Approval.is_expired]
        · have hexp2 : ex.is_expired env = false := by simpa using hexp
          simp [h1, h1b, h2b, hop, hexp2, Approval.is_expired]

/-! ### Success-shape inversion lemmas -/

theorem mint_ok {validate : String → Option Addr} {st : ContractState Ext}
    {info : MessageInfo} {msg : MintMsg Ext} {st' : ContractState Ext}
    {r : Response} (h : mint validate st info msg = .ok (st', r)) :
    ∃ owner, validate msg.owner = some owner ∧
      st.minting_allowed = true ∧
      st.token_count < st.max_mints ∧
      info.funds = [st.mint_price] ∧
      st.tokens.get (Nat.repr st.token_count) = none ∧
      st' = update_token_count
        { st with tokens := (st.tokens.set (Nat.repr st.token_count)
            ⟨owner, [], st.token_uri, msg.extension⟩) } true ∧
      r = ⟨[], [("action", "mint"), ("minter", info.sender),
                ("token_id", Nat.repr st.token_count)]⟩ := by
  unfold mint at h
  split at h
  · simp at h
  · rename_i hallow
    split at h
    · simp at h
    · rename_i hcap
      split at h
      · rename_i coin hfunds
        split at h
        · simp at h
        · rename_i hprice
          split at h
          · simp at h
          · rename_i owner howner
            split at h
            · simp at h
            · rename_i hfresh
              simp only [Except.ok.injEq, Prod.mk.injEq] at h
              refine ⟨owner, howner, ?_, ?_, ?_, hfresh, h.1.symm, h.2.symm⟩
              · simpa using hallow
              · omega
              · rw [hfunds]
                simp only [List.cons.injEq, and_true]
                by_contra hne
                exact hprice hne
      · simp at h

theorem set_mint_config_ok {st : ContractState Ext} {info : MessageInfo}
    {price : Coin} {max_mints : Nat} {st' : ContractState Ext} {r : Response}
    (h : set_mint_config st info price max_mints = .ok (st', r)) :
    info.sender = st.minter ∧
      st' = { st with mint_price := price, max_mints := max_mints } := by
  unfold set_mint_config at h
  split at h
  · simp at h
  · rename_i hs
    simp only [Except.ok.injEq, Prod.mk.injEq] at h
    exact ⟨not_not.mp hs, h.1.symm⟩

theorem toggle_minting_ok {st : ContractState Ext} {info : MessageInfo}
    {st' : ContractState Ext} {r : Response}
    (h : toggle_minting st info = .ok (st', r)) :
    info.sender = st.minter ∧
      st' = { st with minting_allowed := ! st.minting_allowed } := by
  unfold toggle_minting at h
  split at h
  · simp at h
  · rename_i hs
    simp only [Except.ok.injEq, Prod.mk.injEq] at h
    exact ⟨not_not.mp hs, h.1.symm⟩

theorem approve_all_ok {validate : String → Option Addr} {st : ContractState Ext}
    {env : BlockInfo} {info : MessageInfo} {operator : String}
    {expires : Option Expiration} {st' : ContractState Ext} {r : Response}
    (h : approve_all validate st env info operator expires = .ok (st', r)) :
    ∃ operator_addr, validate operator = some operator_addr ∧
      (expires.getD Expiration.default).is_expired env = false ∧
      st' = { st with operators :=
        (st.operators.set (info.sender, operator_addr)
          (expires.getD Expiration.default)) } := by
  unfold approve_all at h
  by_cases hex : (expires.getD Expiration.default).is_expired env = true
  · simp [hex] at h
  · cases hval : validate operator with
    | none => simp [hex, hval] at h
    | some operator_addr =>
      have hex' : (expires.getD Expiration.default).is_expired env = false := by
        simpa using hex
      simp only [hex', hval, if_false, Bool.false_eq_true] at h
      simp only [Except.ok.injEq, Prod.mk.injEq] at h
      exact ⟨operator_addr, rfl, hex', h.1.symm⟩

theorem revoke_all_ok {validate : String → Option Addr} {st : ContractState Ext}
    {info : MessageInfo} {operator : String} {st' : ContractState Ext}
    {r : Response} (h : revoke_all validate st info operator = .ok (st', r)) :
    ∃ operator_addr, validate operator = some operator_addr ∧
      st' = { st with operators :=
        st.operators.remove (info.sender, operator_addr) } := by
  unfold revoke_all at h
  split at h
  · simp at h
  · rename_i operator_addr hop
    simp only [Except.ok.injEq, Prod.mk.injEq] at h
    exact ⟨operator_addr, hop, h.1.symm⟩

theorem _update_approvals_ok {validate : String → Option Addr}
    {st : ContractState Ext} {env : BlockInfo} {info : MessageInfo}
    {spender token_id : String} {add : Bool} {expires : Option Expiration}
    {st' : ContractState Ext} {tok' : TokenInfo Ext}
    (h : _update_approvals validate st env info spender token_id add expires
      = .ok (st', tok')) :
    ∃ token spender_addr,
      st.tokens.get token_id = some token ∧
      check_can_approve st env info token = .ok () ∧
      validate spender = some spender_addr ∧
      ((add = true ∧ (expires.getD Expiration.default).is_expired env = false ∧
          tok' = { token with approvals :=
            (token.approvals.filter (fun apr => ! (apr.spender == spender_addr))
              ++ [⟨spender_addr, expires.getD Expiration.default⟩]) }) ∨
        (add = false ∧ tok' = { token with approvals :=
          (token.approvals.filter
            (fun apr => ! (apr.spender == spender_addr))) })) ∧
      st' = { st with tokens := st.tokens.set token_id tok' } := by
  unfold _update_approvals at h
  split at h
  · simp at h
  · rename_i token htok
    split at h
    · simp at h
    · have hcan' : check_can_approve st env info token = .ok () := by assumption
      split at h
      · simp at h
      · rename_i spender_addr hsp
        split at h
        · rename_i hadd
          by_cases hex : (expires.getD Expiration.default).is_expired env = true
          · simp [hex] at h
          · have hex' : (expires.getD Expiration.default).is_expired env = false := by
              simpa using hex
            simp only [hex', if_false, Bool.false_eq_true] at h
            simp only [Except.ok.injEq, Prod.mk.injEq] at h
            exact ⟨token, spender_addr, htok, hcan', hsp,
              Or.inl ⟨hadd, hex', h.2.symm⟩, h.2 ▸ h.1.symm⟩
        · rename_i hadd
          have hadd' : add = false := by simpa using hadd
          simp only [Except.ok.injEq, Prod.mk.injEq] at h
          exact ⟨token, spender_addr, htok, hcan', hsp,
            Or.inr ⟨hadd', h.2.symm⟩, h.2 ▸ h.1.symm⟩

theorem _transfer_nft_ok {validate : String → Option Addr}
    {st : ContractState Ext} {env : BlockInfo} {info : MessageInfo}
    {recipient token_id : String} {st' : ContractState Ext}
    {tok' : TokenInfo Ext}
    (h : _transfer_nft validate st env info recipient token_id
      = .ok (st', tok')) :
    ∃ token recipient_addr,
      st.tokens.get token_id = some token ∧
      check_can_send st env info token = .ok () ∧
      validate recipient = some recipient_addr ∧
      tok' = { token with owner := recipient_addr, approvals := [] } ∧
      st' = { st with tokens := st.tokens.set token_id tok' } := by
  unfold _transfer_nft at h
  split at h
  · simp at h
  · rename_i token htok
    split at h
    · simp at h
    · have hcan' : check_can_send st env info token = .ok () := by assumption
      split at h
      · simp at h
      · rename_i recipient_addr hrec
        simp only [Except.ok.injEq, Prod.mk.injEq] at h
        exact ⟨token, recipient_addr, htok, hcan', hrec, h.2.symm,
          h.2 ▸ h.1.symm⟩

theorem burn_ok {validate : String → Option Addr} {st : ContractState Ext}
    {env : BlockInfo} {info : MessageInfo} {token_id : String}
    {st' : ContractState Ext} {r : Response}
    (h : burn validate st env info token_id = .ok (st', r)) :
    ∃ token,
      st.tokens.get token_id = some token ∧
      check_can_send st env info token = .ok () ∧
      st' = update_token_count
        { st with tokens := st.tokens.remove token_id } false := by
  unfold burn at h
  split at h
  · simp at h
  · rename_i token htok
    split at h
    · simp at h
    · have hcan' : check_can_send st env info token = .ok () := by assumption
      simp only [Except.ok.injEq, Prod.mk.injEq] at h
      exact ⟨token, htok, hcan', h.1.symm⟩

theorem approve_ok {validate : String → Option Addr} {st : ContractState Ext}
    {env : BlockInfo} {info : MessageInfo} {spender token_id : String}
    {expires : Option Expiration} {st' : ContractState Ext} {r : Response}
    (h : approve validate st env info spender token_id expires = .ok (st', r)) :
    ∃ tok', _update_approvals validate st env info spender token_id true expires
      = .ok (st', tok') := by
  unfold approve at h
  cases hu : _update_approvals validate st env info spender token_id true expires with
  | error e => rw [hu] at h; simp at h
  | ok p =>
    obtain ⟨st1, tok1⟩ := p
    rw [hu] at h
    simp only [Except.ok.injEq, Prod.mk.injEq] at h
    exact ⟨tok1, by rw [h.1]⟩

theorem revoke_ok {validate : String → Option Addr} {st : ContractState Ext}
    {env : BlockInfo} {info : MessageInfo} {spender token_id : String}
    {st' : ContractState Ext} {r : Response}
    (h : revoke validate st env info spender token_id = .ok (st', r)) :
    ∃ tok', _update_approvals validate st env info spender token_id false none
      = .ok (st', tok') := by
  unfold revoke at h
  cases hu : _update_approvals validate st env info spender token_id false none with
  | error e => rw [hu] at h; simp at h
  | ok p =>
    obtain ⟨st1, tok1⟩ := p
    rw [hu] at h
    simp only [Except.ok.injEq, Prod.mk.injEq] at h
    exact ⟨tok1, by rw [h.1]⟩

theorem transfer_nft_ok {validate : String → Option Addr}
    {st : ContractState Ext} {env : BlockInfo} {info : MessageInfo}
    {recipient token_id : String} {st' : ContractState Ext} {r : Response}
    (h : transfer_nft validate st env info recipient token_id = .ok (st', r)) :
    ∃ tok', _transfer_nft validate st env info recipient token_id
      = .ok (st', tok') := by
  unfold transfer_nft at h
  cases hu : _transfer_nft validate st env info recipient token_id with
  | error e => rw [hu] at h; simp at h
  | ok p =>
    obtain ⟨st1, tok1⟩ := p
    rw [hu] at h
    simp only [Except.ok.injEq, Prod.mk.injEq] at h
    exact ⟨tok1, by rw [h.1]⟩

theorem send_nft_ok {validate : String → Option Addr} {st : ContractState Ext}
    {env : BlockInfo} {info : MessageInfo} {contract token_id msg : String}
    {st' : ContractState Ext} {r : Response}
    (h : send_nft validate st env info contract token_id msg = .ok (st', r)) :
    (∃ tok', _transfer_nft validate st env info contract token_id
      = .ok (st', tok')) ∧
      r = ⟨[⟨contract, info.sender, token_id, msg⟩],
           [("action", "send_nft"), ("sender", info.sender),
            ("recipient", contract), ("token_id", token_id)]⟩ := by
  unfold send_nft at h
  cases hu : _transfer_nft validate st env info contract token_id with
  | error e => rw [hu] at h; simp at h
  | ok p =>
    obtain ⟨st1, tok1⟩ := p
    rw [hu] at h
    simp only [Except.ok.injEq, Prod.mk.injEq] at h
    exact ⟨⟨tok1, by rw [h.1]⟩, h.2.symm⟩

/-! ### The error kinds each operation can produce -/

theorem check_can_approve_err {st : ContractState Ext} {env : BlockInfo}
    {info : MessageInfo} {token : TokenInfo Ext} {e : ContractError}
    (h : check_can_approve st env info token = .error e) : e = .Unauthorized := by
  unfold check_can_approve at h
  repeat' split at h
  all_goals simp_all

theorem check_can_send_err {st : ContractState Ext} {env : BlockInfo}
    {info : MessageInfo} {token : TokenInfo Ext} {e : ContractError}
    (h : check_can_send st env info token = .error e) : e = .Unauthorized := by
  unfold check_can_send at h
  repeat' split at h
  all_goals simp_all

theorem mint_err {validate : String → Option Addr} {st : ContractState Ext}
    {info : MessageInfo} {msg : MintMsg Ext} {e : ContractError}
    (h : mint validate st info msg = .error e) : notReserved e := by
  unfold mint at h
  repeat' split at h
  all_goals simp at h
  all_goals (subst h; simp [notReserved])

theorem set_mint_config_err {st : ContractState Ext} {info : MessageInfo}
    {price : Coin} {max_mints : Nat} {e : ContractError}
    (h : set_mint_config st info price max_mints = .error e) : notReserved e := by
  unfold set_mint_config at h
  repeat' split at h
  all_goals simp at h
  all_goals (subst h; simp [notReserved])

theorem toggle_minting_err {st : ContractState Ext} {info : MessageInfo}
    {e : ContractError} (h : toggle_minting st info = .error e) :
    notReserved e := by
  unfold toggle_minting at h
  repeat' split at h
  all_goals simp at h
  all_goals (subst h; simp [notReserved])

theorem _update_approvals_err {validate : String → Option Addr}
    {st : ContractState Ext} {env : BlockInfo} {info : MessageInfo}
    {spender token_id : String} {add : Bool} {expires : Option Expiration}
    {e : ContractError}
    (h : _update_approvals validate st env info spender token_id add expires
      = .error e) : notReserved e := by
  unfold _update_approvals at h
  simp only [check_can_approve_eq] at h
  try dsimp only [] at h
  repeat' split at h
  all_goals simp at h
  all_goals try (subst h; simp [notReserved])
  all_goals (rename_i heq2
             split at heq2 <;> simp at heq2
             subst heq2
             simp [notReserved])

theorem _transfer_nft_err {validate : String → Option Addr}
    {st : ContractState Ext} {env : BlockInfo} {info : MessageInfo}
    {recipient token_id : String} {e : ContractError}
    (h : _transfer_nft validate st env info recipient token_id = .error e) :
    notReserved e := by
  unfold _transfer_nft at h
  simp only [check_can_send_eq] at h
  try dsimp only [] at h
  repeat' split at h
  all_goals simp at h
  all_goals try (subst h; simp [notReserved])
  all_goals (rename_i heq2
             split at heq2 <;> simp at heq2
             subst heq2
             simp [notReserved])

theorem burn_err {validate : String → Option Addr} {st : ContractState Ext}
    {env : BlockInfo} {info : MessageInfo} {token_id : String}
    {e : ContractError}
    (h : burn validate st env info token_id = .error e) : notReserved e := by
  unfold burn at h
  simp only [check_can_send_eq] at h
  try dsimp only [] at h
  repeat' split at h
  all_goals simp at h
  all_goals try (subst h; simp [notReserved])
  all_goals (rename_i heq2
             split at heq2 <;> simp at heq2
             subst heq2
             simp [notReserved])

theorem approve_all_err {validate : String → Option Addr}
    {st : ContractState Ext} {env : BlockInfo} {info : MessageInfo}
    {operator : String} {expires : Option Expiration} {e : ContractError}
    (h : approve_all validate st env info operator expires = .error e) :
    notReserved e := by
  unfold approve_all at h
  by_cases hex : (expires.getD Expiration.default).is_expired env = true
  all_goals cases hval : validate operator <;> simp [hex, hval] at h
  all_goals (subst h; simp [notReserved])

theorem revoke_all_err {validate : String → Option Addr}
    {st : ContractState Ext} {info : MessageInfo} {operator : String}
    {e : ContractError}
    (h : revoke_all validate st info operator = .error e) : notReserved e := by
  unfold revoke_all at h
  repeat' split at h
  all_goals simp at h
  all_goals (subst h; simp [notReserved])

theorem execute_err {validate : String → Option Addr} {st : ContractState Ext}
    {env : BlockInfo} {info : MessageInfo} {msg : ExecuteMsg Ext}
    {e : ContractError}
    (h : execute validate st env info msg = .error e) : notReserved e := by
  cases msg with
  | Mint m => exact mint_err h
  | SetMintConfig price max_mints => exact set_mint_config_err h
  | ToggleMinting => exact toggle_minting_err h
  | Approve spender token_id expires =>
    simp only [execute, approve] at h
    cases hu : _update_approvals validate st env info spender token_id true
        expires with
    | error e2 =>
      rw [hu] at h
      simp only [Except.error.injEq] at h
      exact h ▸ _update_approvals_err hu
    | ok p => obtain ⟨a, b⟩ := p; rw [hu] at h; simp at h
  | Revoke spender token_id =>
    simp only [execute, revoke] at h
    cases hu : _update_approvals validate st env info spender token_id false
        none with
    | error e2 =>
      rw [hu] at h
      simp only [Except.error.injEq] at h
      exact h ▸ _update_approvals_err hu
    | ok p => obtain ⟨a, b⟩ := p; rw [hu] at h; simp at h
  | ApproveAll operator expires => exact approve_all_err h
  | RevokeAll operator => exact revoke_all_err h
  | TransferNft recipient token_id =>
    simp only [execute, transfer_nft] at h
    cases hu : _transfer_nft validate st env info recipient token_id with
    | error e2 =>
      rw [hu] at h
      simp only [Except.error.injEq] at h
      exact h ▸ _transfer_nft_err hu
    | ok p => obtain ⟨a, b⟩ := p; rw [hu] at h; simp at h
  | SendNft contract token_id m =>
    simp only [execute, send_nft] at h
    cases hu : _transfer_nft validate st env info contract token_id with
    | error e2 =>
      rw [hu] at h
      simp only [Except.error.injEq] at h
      exact h ▸ _transfer_nft_err hu
    | ok p => obtain ⟨a, b⟩ := p; rw [hu] at h; simp at h
  | Burn token_id => exact @burn_err Ext validate st env info token_id e h

end FineArt

namespace FineArt

/-! ### Decimal representation: `Nat.repr` is injective

`mint` keys new tokens by `token_count.to_string()`; the claims about id
uniqueness need that distinct counters give distinct strings. -/

theorem digitChar_inj_lt {a b : Nat} (ha : a < 10) (hb : b < 10)
    (h : Nat.digitChar a = Nat.digitChar b) : a = b := by
  have key : ∀ x y : Fin 10, Nat.digitChar x.val = Nat.digitChar y.val → x = y := by
    decide
  have := key ⟨a, ha⟩ ⟨b, hb⟩ h
  exact congrArg Fin.val this

theorem map_digitChar_inj : ∀ (l1 l2 : List Nat), (∀ x ∈ l1, x < 10) →
    (∀ x ∈ l2, x < 10) → l1.map Nat.digitChar = l2.map Nat.digitChar → l1 = l2
  | [], [], _, _, _ => rfl
  | [], _ :: _, _, _, h => by simp at h
  | _ :: _, [], _, _, h => by simp at h
  | a :: l1, b :: l2, h1, h2, h => by
    simp only [List.map_cons, List.cons.injEq] at h
    have ha := h1 a (List.mem_cons_self a l1)
    have hb := h2 b (List.mem_cons_self b l2)
    have hab := digitChar_inj_lt ha hb h.1
    have hrest := map_digitChar_inj l1 l2
      (fun x hx => h1 x (List.mem_cons_of_mem a hx))
      (fun x hx => h2 x (List.mem_cons_of_mem b hx)) h.2
    rw [hab, hrest]

theorem toDigitsCore_eq_digits (fuel : Nat) : ∀ (n : Nat) (ds : List Char),
    0 < n → n ≤ fuel →
    Nat.toDigitsCore 10 fuel n ds =
      ((Nat.digits 10 n).map Nat.digitChar).reverse ++ ds := by
  induction fuel with
  | zero => intro n ds hn hf; omega
  | succ fuel ih =>
    intro n ds hn hf
    rw [Nat.toDigitsCore]
    by_cases hdiv : n / 10 = 0
    · have hlt : n < 10 := (Nat.div_eq_zero_iff (by norm_num)).mp hdiv
      simp only [hdiv, if_true]
      rw [Nat.digits_def' (by norm_num : (1:ℕ) < 10) hn, hdiv, Nat.digits_zero,
        Nat.mod_eq_of_lt hlt]
      simp
    · have hpos : 0 < n / 10 := Nat.pos_of_ne_zero hdiv
      have hle : n / 10 ≤ fuel := by
        have : n / 10 < n := Nat.div_lt_self hn (by norm_num)
        omega
      simp only [hdiv, if_false]
      rw [ih (n / 10) (Nat.digitChar (n % 10) :: ds) hpos hle,
        Nat.digits_def' (by norm_num : (1:ℕ) < 10) hn]
      simp

theorem repr_eq_of_pos {n : Nat} (hn : 0 < n) :
    Nat.repr n = (((Nat.digits 10 n).map Nat.digitChar).reverse).asString := by
  rw [Nat.repr, Nat.toDigits,
    toDigitsCore_eq_digits (n + 1) n [] hn (Nat.le_succ n), List.append_nil]

theorem repr_injective : Function.Injective Nat.repr := by
  intro m n h
  rcases Nat.eq_zero_or_pos m with hm | hm <;>
    rcases Nat.eq_zero_or_pos n with hn | hn
  · omega
  · exfalso
    subst hm
    rw [repr_eq_of_pos hn] at h
    have h0 : Nat.repr 0 = List.asString ['0'] := rfl
    rw [h0] at h
    have hl := List.asString_inj.mp h
    have hl2 : (Nat.digits 10 n).map Nat.digitChar = ['0'] := by
      have := congrArg List.reverse hl
      simpa using this.symm
    rcases hd : Nat.digits 10 n with _ | ⟨d, rest⟩
    · rw [hd] at hl2; simp at hl2
    · rw [hd] at hl2
      rcases rest with _ | ⟨d2, rest2⟩
      · simp only [List.map_cons, List.map_nil, List.cons.injEq, and_true] at hl2
        have hdlt : d < 10 :=
          Nat.digits_lt_base (by norm_num) (by rw [hd]; exact List.mem_cons_self d [])
        have : d = 0 := digitChar_inj_lt hdlt (by norm_num) (by rw [hl2]; rfl)
        subst this
        have := Nat.ofDigits_digits 10 n
        rw [hd] at this
        simp [Nat.ofDigits] at this
        omega
      · simp at hl2
  · exfalso
    subst hn
    rw [repr_eq_of_pos hm] at h
    have h0 : Nat.repr 0 = List.asString ['0'] := rfl
    rw [h0] at h
    have hl := List.asString_inj.mp h
    have hl2 : (Nat.digits 10 m).map Nat.digitChar = ['0'] := by
      have := congrArg List.reverse hl
      simpa using this
    rcases hd : Nat.digits 10 m with _ | ⟨d, rest⟩
    · rw [hd] at hl2; simp at hl2
    · rw [hd] at hl2
      rcases rest with _ | ⟨d2, rest2⟩
      · simp only [List.map_cons, List.map_nil, List.cons.injEq, and_true] at hl2
        have hdlt : d < 10 :=
          Nat.digits_lt_base (by norm_num) (by rw [hd]; exact List.mem_cons_self d [])
        have : d = 0 := digitChar_inj_lt hdlt (by norm_num) (by rw [hl2]; rfl)
        subst this
        have := Nat.ofDigits_digits 10 m
        rw [hd] at this
        simp [Nat.ofDigits] at this
        omega
      · simp at hl2
  · rw [repr_eq_of_pos hm, repr_eq_of_pos hn] at h
    have hl := List.asString_inj.mp h
    have hl2 := List.reverse_injective hl
    have hdig := map_digitChar_inj _ _
      (fun x hx => Nat.digits_lt_base (by norm_num) hx)
      (fun x hx => Nat.digits_lt_base (by norm_num) hx) hl2
    have := congrArg (Nat.ofDigits 10) hdig
    rwa [Nat.ofDigits_digits, Nat.ofDigits_digits] at this

end FineArt

namespace FineArt

variable {Ext : Type}

/-! ### Per-step facts about the dispatcher -/

theorem instantiate_ok {validate : String → Option Addr}
    {imsg : InstantiateMsg} {st0 : ContractState Ext}
    (h : instantiate validate imsg = some st0) :
    st0.token_count = 0 ∧ st0.tokens = KVMap.empty ∧
      st0.minting_allowed = true := by
  unfold instantiate at h
  split at h
  · simp at h
  · simp only [Option.some.injEq] at h
    subst h
    exact ⟨rfl, rfl, rfl⟩

theorem approvals_after_add_nodup (aps : List Approval) (sp : Addr)
    (ex : Expiration) (hnd : (aps.map Approval.spender).Nodup) :
    (((aps.filter (fun apr => ! (apr.spender == sp)))
        ++ [(⟨sp, ex⟩ : Approval)]).map Approval.spender).Nodup := by
  rw [List.map_append]
  refine List.nodup_append.mpr ⟨?_, ?_, ?_⟩
  · exact hnd.sublist ((aps.filter_sublist).map Approval.spender)
  · simp
  · intro a ha hb
    simp only [List.map_cons, List.map_nil, List.mem_singleton] at hb
    obtain ⟨apr, hmem, hsp⟩ := List.mem_map.mp ha
    have hpred := (List.mem_filter.mp hmem).2
    have hne : apr.spender ≠ sp := by simpa using hpred
    exact hne (hsp.trans hb)

theorem approvals_after_remove_nodup (aps : List Approval) (sp : Addr)
    (hnd : (aps.map Approval.spender).Nodup) :
    ((aps.filter (fun apr => ! (apr.spender == sp))).map
      Approval.spender).Nodup :=
  hnd.sublist ((aps.filter_sublist).map Approval.spender)

theorem execute_ok_token_count {validate : String → Option Addr}
    {st : ContractState Ext} {env : BlockInfo} {info : MessageInfo}
    {msg : ExecuteMsg Ext} {st' : ContractState Ext} {r : Response}
    (h : execute validate st env info msg = .ok (st', r)) :
    st'.token_count = st.token_count + (if isMint msg then 1 else 0) ∧
      mintIds msg r = (if isMint msg then [Nat.repr st.token_count] else []) := by
  cases msg with
  | Mint m =>
    have h2 : mint validate st info m = .ok (st', r) := h
    obtain ⟨owner, hval, -, -, -, hfresh, hst, hr⟩ := mint_ok h2
    subst hst
    subst hr
    exact ⟨by simp [update_token_count, isMint], by simp [mintIds, isMint]⟩
  | SetMintConfig price mm =>
    have h2 : set_mint_config st info price mm = .ok (st', r) := h
    obtain ⟨-, hst⟩ := set_mint_config_ok h2
    subst hst
    exact ⟨by simp [isMint], by simp [mintIds, isMint]⟩
  | ToggleMinting =>
    have h2 : toggle_minting st info = .ok (st', r) := h
    obtain ⟨-, hst⟩ := toggle_minting_ok h2
    subst hst
    exact ⟨by simp [isMint], by simp [mintIds, isMint]⟩
  | Approve spender token_id expires =>
    have h2 : approve validate st env info spender token_id expires
      = .ok (st', r) := h
    obtain ⟨tok1, hu⟩ := approve_ok h2
    obtain ⟨token, sp, -, -, -, -, hst⟩ := _update_approvals_ok hu
    subst hst
    exact ⟨by simp [isMint], by simp [mintIds, isMint]⟩
  | Revoke spender token_id =>
    have h2 : revoke validate st env info spender token_id = .ok (st', r) := h
    obtain ⟨tok1, hu⟩ := revoke_ok h2
    obtain ⟨token, sp, -, -, -, -, hst⟩ := _update_approvals_ok hu
    subst hst
    exact ⟨by simp [isMint], by simp [mintIds, isMint]⟩
  | ApproveAll operator expires =>
    have h2 : approve_all validate st env info operator expires
      = .ok (st', r) := h
    obtain ⟨op, -, -, hst⟩ := approve_all_ok h2
    subst hst
    exact ⟨by simp [isMint], by simp [mintIds, isMint]⟩
  | RevokeAll operator =>
    have h2 : revoke_all validate st info operator = .ok (st', r) := h
    obtain ⟨op, -, hst⟩ := revoke_all_ok h2
    subst hst
    exact ⟨by simp [isMint], by simp [mintIds, isMint]⟩
  | TransferNft recipient token_id =>
    have h2 : transfer_nft validate st env info recipient token_id
      = .ok (st', r) := h
    obtain ⟨tok1, hu⟩ := transfer_nft_ok h2
    obtain ⟨token, ra, -, -, -, -, hst⟩ := _transfer_nft_ok hu
    subst hst
    exact ⟨by simp [isMint], by simp [mintIds, isMint]⟩
  | SendNft contract token_id m =>
    have h2 : send_nft validate st env info contract token_id m
      = .ok (st', r) := h
    obtain ⟨⟨tok1, hu⟩, -⟩ := send_nft_ok h2
    obtain ⟨token, ra, -, -, -, -, hst⟩ := _transfer_nft_ok hu
    subst hst
    exact ⟨by simp [isMint], by simp [mintIds, isMint]⟩
  | Burn token_id =>
    have h2 : burn validate st env info token_id = .ok (st', r) := h
    obtain ⟨token, -, -, hst⟩ := burn_ok h2
    subst hst
    exact ⟨by simp [update_token_count, isMint], by simp [mintIds, isMint]⟩

theorem execute_ok_approvals_unique {validate : String → Option Addr}
    {st : ContractState Ext} {env : BlockInfo} {info : MessageInfo}
    {msg : ExecuteMsg Ext} {st' : ContractState Ext} {r : Response}
    (h : execute validate st env info msg = .ok (st', r))
    (hinv : approvalsUnique st) : approvalsUnique st' := by
  cases msg with
  | Mint m =>
    have h2 : mint validate st info m = .ok (st', r) := h
    obtain ⟨owner, hval, -, -, -, hfresh, hst, -⟩ := mint_ok h2
    subst hst
    intro k t hget
    simp only [update_token_count, if_true] at hget
    by_cases hk : k = Nat.repr st.token_count
    · subst hk
      rw [KVMap.get_set_self] at hget
      cases hget
      simp
    · rw [KVMap.get_set_ne _ _ _ _ hk] at hget
      exact hinv k t hget
  | SetMintConfig price mm =>
    have h2 : set_mint_config st info price mm = .ok (st', r) := h
    obtain ⟨-, hst⟩ := set_mint_config_ok h2
    subst hst
    exact fun k t hget => hinv k t hget
  | ToggleMinting =>
    have h2 : toggle_minting st info = .ok (st', r) := h
    obtain ⟨-, hst⟩ := toggle_minting_ok h2
    subst hst
    exact fun k t hget => hinv k t hget
  | Approve spender token_id expires =>
    have h2 : approve validate st env info spender token_id expires
      = .ok (st', r) := h
    obtain ⟨tok1, hu⟩ := approve_ok h2
    obtain ⟨token, sp, htok, -, -, hshape, hst⟩ := _update_approvals_ok hu
    subst hst
    intro k t hget
    by_cases hk : k = token_id
    · subst hk
      rw [KVMap.get_set_self] at hget
      cases hget
      rcases hshape with ⟨-, -, hform⟩ | ⟨hfalse, -⟩
      · subst hform
        exact approvals_after_add_nodup token.approvals sp _
          (hinv _ _ htok)
      · cases hfalse
    · rw [KVMap.get_set_ne _ _ _ _ hk] at hget
      exact hinv k t hget
  | Revoke spender token_id =>
    have h2 : revoke validate st env info spender token_id = .ok (st', r) := h
    obtain ⟨tok1, hu⟩ := revoke_ok h2
    obtain ⟨token, sp, htok, -, -, hshape, hst⟩ := _update_approvals_ok hu
    subst hst
    intro k t hget
    by_cases hk : k = token_id
    · subst hk
      rw [KVMap.get_set_self] at hget
      cases hget
      rcases hshape with ⟨hfalse, -⟩ | ⟨-, hform⟩
      · cases hfalse
      · subst hform
        exact approvals_after_remove_nodup token.approvals sp (hinv _ _ htok)
    · rw [KVMap.get_set_ne _ _ _ _ hk] at hget
      exact hinv k t hget
  | ApproveAll operator expires =>
    have h2 : approve_all validate st env info operator expires
      = .ok (st', r) := h
    obtain ⟨op, -, -, hst⟩ := approve_all_ok h2
    subst hst
    exact fun k t hget => hinv k t hget
  | RevokeAll operator =>
    have h2 : revoke_all validate st info operator = .ok (st', r) := h
    obtain ⟨op, -, hst⟩ := revoke_all_ok h2
    subst hst
    exact fun k t hget => hinv k t hget
  | TransferNft recipient token_id =>
    have h2 : transfer_nft validate st env info recipient token_id
      = .ok (st', r) := h
    obtain ⟨tok1, hu⟩ := transfer_nft_ok h2
    obtain ⟨token, ra, htok, -, -, hform, hst⟩ := _transfer_nft_ok hu
    subst hst
    intro k t hget
    by_cases hk : k = token_id
    · subst hk
      rw [KVMap.get_set_self] at hget
      cases hget
      subst hform
      simp
    · rw [KVMap.get_set_ne _ _ _ _ hk] at hget
      exact hinv k t hget
  | SendNft contract token_id m =>
    have h2 : send_nft validate st env info contract token_id m
      = .ok (st', r) := h
    obtain ⟨⟨tok1, hu⟩, -⟩ := send_nft_ok h2
    obtain ⟨token, ra, htok, -, -, hform, hst⟩ := _transfer_nft_ok hu
    subst hst
    intro k t hget
    by_cases hk : k = token_id
    · subst hk
      rw [KVMap.get_set_self] at hget
      cases hget
      subst hform
      simp
    · rw [KVMap.get_set_ne _ _ _ _ hk] at hget
      exact hinv k t hget
  | Burn token_id =>
    have h2 : burn validate st env info token_id = .ok (st', r) := h
    obtain ⟨token, -, -, hst⟩ := burn_ok h2
    subst hst
    intro k t hget
    have hget2 : ((st.tokens.remove token_id).get k : Option (TokenInfo Ext))
        = some t := by
      simpa [update_token_count] using hget
    by_cases hk : k = token_id
    · subst hk
      rw [KVMap.get_remove_self] at hget2
      cases hget2
    · rw [KVMap.get_remove_ne _ _ _ hk] at hget2
      exact hinv k t hget2

theorem map_repr_range_succ (n c : Nat) :
    (List.range (n + 1)).map (fun i => Nat.repr (c + i))
      = Nat.repr c :: (List.range n).map (fun i => Nat.repr (c + 1 + i)) := by
  rw [List.range_succ_eq_map, List.map_cons, List.map_map]
  simp only [Nat.add_zero]
  congr 1
  apply List.map_congr_left
  intro a ha
  simp only [Function.comp_apply]
  congr 1
  omega

/-- The main trace lemma: an all-successful run adds one to the counter per
mint, reports exactly the consecutive counter values as minted ids, and
preserves the approvals-uniqueness invariant. -/
theorem runTraceIds_ok {validate : String → Option Addr} :
    ∀ (steps : List (Step Ext)) (st stF : ContractState Ext) (ids : List String),
    runTraceIds validate st steps = some (stF, ids) →
    stF.token_count = st.token_count + countMints steps ∧
      ids = (List.range (countMints steps)).map
        (fun i => Nat.repr (st.token_count + i)) ∧
      (approvalsUnique st → approvalsUnique stF) := by
  intro steps
  induction steps with
  | nil =>
    intro st stF ids h
    simp only [runTraceIds, Option.some.injEq, Prod.mk.injEq] at h
    obtain ⟨h1, h2⟩ := h
    subst h1
    subst h2
    simp [countMints]
  | cons s rest ih =>
    intro st stF ids h
    unfold runTraceIds at h
    cases he : execute validate st s.env s.info s.msg with
    | error e => rw [he] at h; simp at h
    | ok p =>
      obtain ⟨st1, r1⟩ := p
      rw [he] at h
      try dsimp only [] at h
      cases hrest : runTraceIds validate st1 rest with
      | none => rw [hrest] at h; simp at h
      | some q =>
        obtain ⟨st2, ids2⟩ := q
        rw [hrest] at h
        simp only [Option.some.injEq, Prod.mk.injEq] at h
        obtain ⟨hF, hids⟩ := h
        subst hF
        subst hids
        obtain ⟨htc, hmid⟩ := execute_ok_token_count he
        obtain ⟨h1, h2, h3⟩ := ih st1 st2 ids2 hrest
        have hcm : countMints (s :: rest)
            = (if isMint s.msg then 1 else 0) + countMints rest := by
          cases hm : isMint s.msg <;>
            simp [countMints, List.countP_cons, hm] <;> omega
        rw [htc] at h2
        refine ⟨?_, ?_, ?_⟩
        · rw [h1, htc, hcm]
          omega
        · cases hm : isMint s.msg
          · simp only [hm, Bool.false_eq_true, if_false] at hmid
            simp only [hm, Bool.false_eq_true, if_false, Nat.add_zero] at h2
            have hcm2 : countMints (s :: rest) = countMints rest := by
              rw [hcm, hm]
              simp
            rw [hmid, h2, hcm2]
            simp
          · simp only [hm, if_true] at hmid
            simp only [hm, if_true] at h2
            have hcm2 : countMints (s :: rest) = countMints rest + 1 := by
              rw [hcm, hm]
              simp
              omega
            rw [hmid, h2, hcm2, map_repr_range_succ]
            simp
        · intro hinv
          exact h3 (execute_ok_approvals_unique he hinv)

end FineArt

namespace FineArt

variable {Ext : Type}

/-! ### Claim C2 -/

theorem can_send_spec_iff (st : ContractState Ext) (env : BlockInfo)
    (caller : Addr) (token : TokenInfo Ext) :
    can_send_spec st env caller token = true ↔
      (caller = token.owner ∨
        (∃ a ∈ token.approvals, a.spender = caller ∧
          a.expires.is_expired env = false) ∨
        (∃ ex, st.operators.get (token.owner, caller) = some ex ∧
          ex.is_expired env = false)) := by
  unfold can_send_spec
  cases hop : st.operators.get (token.owner, caller) with
  | none =>
    simp [List.any_eq_true, Bool.and_eq_true, Bool.not_eq_true']
  | some ex =>
    by_cases hexp : ex.is_expired env = true
    · simp [List.any_eq_true, Bool.and_eq_true, Bool.not_eq_true', hexp]
    · have hexp2 : ex.is_expired env = false := by simpa using hexp
      simp [List.any_eq_true, Bool.and_eq_true, Bool.not_eq_true', hexp2]

/-- C2: the send-authorization check succeeds exactly when the caller is the
owner, or a not-expired approval for the caller is on the token, or a
not-expired operator grant keyed by `(token.owner, caller)` exists; in every
other case it fails with `Unauthorized` — an expired approval or grant gives
the same `Unauthorized` as an absent one, never `Expired`. -/
theorem c2_can_send_characterization (st : ContractState Ext) (env : BlockInfo)
    (info : MessageInfo) (token : TokenInfo Ext) :
    (check_can_send st env info token = .ok () ↔
      (info.sender = token.owner ∨
        (∃ a ∈ token.approvals, a.spender = info.sender ∧
          a.expires.is_expired env = false) ∨
        (∃ ex, st.operators.get (token.owner, info.sender) = some ex ∧
          ex.is_expired env = false))) ∧
    (check_can_send st env info token = .ok () ∨
      check_can_send st env info token = .error .Unauthorized) := by
  rw [check_can_send_eq]
  constructor
  · by_cases hc : can_send_spec st env info.sender token = true
    · simp only [hc, if_true]
      constructor
      · intro _
        exact (can_send_spec_iff st env info.sender token).mp hc
      · intro _
        trivial
    · have hc2 : can_send_spec st env info.sender token = false := by
        simpa using hc
      simp only [hc2, Bool.false_eq_true, if_false]
      constructor
      · intro hfalse
        cases hfalse
      · intro hP
        exact absurd ((can_send_spec_iff st env info.sender token).mpr hP) hc
  · by_cases hc : can_send_spec st env info.sender token = true
    · simp [hc]
    · have hc2 : can_send_spec st env info.sender token = false := by
        simpa using hc
      simp [hc2]

/-! ### Claim C3 -/

/-- C3: mint short-circuits in order — `MintingDisabled` when the flag is
off; else `MaxMintsReached` when the count is not strictly below the cap;
else `IncorrectPayment` unless the funds are exactly one coin equal to
`mint_price`.  (Failures return only an error, so no state is changed.) -/
theorem c3_mint_check_order (validate : String → Option Addr)
    (st : ContractState Ext) (info : MessageInfo) (msg : MintMsg Ext) :
    (st.minting_allowed = false →
      mint validate st info msg = .error .MintingDisabled) ∧
    (st.minting_allowed = true → ¬ st.token_count < st.max_mints →
      mint validate st info msg = .error .MaxMintsReached) ∧
    (st.minting_allowed = true → st.token_count < st.max_mints →
      info.funds ≠ [st.mint_price] →
      mint validate st info msg = .error .IncorrectPayment) := by
  refine ⟨?_, ?_, ?_⟩
  · intro hoff
    simp [mint, hoff]
  · intro hon hcap
    have hle : st.max_mints ≤ st.token_count := by omega
    simp [mint, hon, hle]
  · intro hon hcap hpay
    have hnle : ¬ st.max_mints ≤ st.token_count := by omega
    rcases hfund : info.funds with - | ⟨c, - | ⟨c2, cs⟩⟩
    · simp [mint, hon, hnle, hfund]
    · have hcne : c ≠ st.mint_price := by
        intro hceq
        subst hceq
        exact hpay hfund
      simp [mint, hon, hnle, hfund, hcne]
    · simp [mint, hon, hnle, hfund]

/-- Witness for C3: the three failures at concrete states. -/
theorem c3_witness :
    mint idValidate { sampleState with minting_allowed := false }
        ⟨"dave", [⟨"uom", 10⟩]⟩ ⟨"carol", ()⟩ = .error .MintingDisabled ∧
    mint idValidate { sampleState with max_mints := 1 }
        ⟨"dave", [⟨"uom", 10⟩]⟩ ⟨"carol", ()⟩ = .error .MaxMintsReached ∧
    mint idValidate sampleState ⟨"dave", [⟨"uom", 7⟩]⟩ ⟨"carol", ()⟩
      = .error .IncorrectPayment ∧
    mint idValidate sampleState ⟨"dave", []⟩ ⟨"carol", ()⟩
      = .error .IncorrectPayment ∧
    mint idValidate sampleState ⟨"dave", [⟨"uom", 10⟩, ⟨"uom", 10⟩]⟩
        ⟨"carol", ()⟩ = .error .IncorrectPayment ∧
    mint idValidate sampleState ⟨"dave", [⟨"other", 10⟩]⟩ ⟨"carol", ()⟩
      = .error .IncorrectPayment := by
  refine ⟨?_, ?_, ?_, ?_, ?_, ?_⟩
  · exact (c3_mint_check_order idValidate _ _ _).1 rfl
  · exact (c3_mint_check_order idValidate _ _ _).2.1 rfl (by decide)
  · exact (c3_mint_check_order idValidate _ _ _).2.2 rfl (by decide) (by decide)
  · exact (c3_mint_check_order idValidate _ _ _).2.2 rfl (by decide) (by decide)
  · exact (c3_mint_check_order idValidate _ _ _).2.2 rfl (by decide) (by decide)
  · exact (c3_mint_check_order idValidate _ _ _).2.2 rfl (by decide) (by decide)

/-! ### Claim C7 -/

/-- C7: `SetMintConfig` and `ToggleMinting` succeed exactly for the stored
minter (every other caller gets `Unauthorized`); on success the former
overwrites `mint_price` and `max_mints` unconditionally and the latter
negates `minting_allowed`, with nothing else changed. -/
theorem c7_admin_ops (st : ContractState Ext) (info : MessageInfo)
    (price : Coin) (m : Nat) :
    (info.sender ≠ st.minter →
      set_mint_config st info price m = .error .Unauthorized ∧
      toggle_minting st info = .error .Unauthorized) ∧
    (info.sender = st.minter →
      (∃ r, set_mint_config st info price m
        = .ok ({ st with mint_price := price, max_mints := m }, r)) ∧
      (∃ r, toggle_minting st info
        = .ok ({ st with minting_allowed := ! st.minting_allowed }, r))) := by
  constructor
  · intro hne
    exact ⟨by simp [set_mint_config, hne], by simp [toggle_minting, hne]⟩
  · intro heq
    refine ⟨⟨⟨[], [("action", "set_mint_config"), ("price", price.toStr),
      ("max_mints", Nat.repr m)]⟩, ?_⟩,
      ⟨⟨[], [("action", "toggle_minting"),
        ("minting_allowed", toString (! st.minting_allowed))]⟩, ?_⟩⟩
    · simp [set_mint_config, heq]
    · simp [toggle_minting, heq]

/-- Witness for C7: a stranger is rejected; the minter lowers `max_mints`
below the current count (1) and toggles the flag. -/
theorem c7_witness :
    (set_mint_config sampleState ⟨"mallory", []⟩ ⟨"uom", 1⟩ 0
        = .error .Unauthorized ∧
      toggle_minting sampleState ⟨"mallory", []⟩ = .error .Unauthorized) ∧
    (∃ r, set_mint_config sampleState ⟨"admin", []⟩ ⟨"uom", 1⟩ 0
      = .ok ({ sampleState with mint_price := ⟨"uom", 1⟩, max_mints := 0 }, r)) ∧
    (∃ r, toggle_minting sampleState ⟨"admin", []⟩
      = .ok ({ sampleState with minting_allowed := false }, r)) := by
  refine ⟨(c7_admin_ops sampleState ⟨"mallory", []⟩ ⟨"uom", 1⟩ 0).1 (by decide),
    ?_, ?_⟩
  · exact (c7_admin_ops sampleState ⟨"admin", []⟩ ⟨"uom", 1⟩ 0).2 rfl |>.1
  · obtain ⟨r, hr⟩ := ((c7_admin_ops sampleState ⟨"admin", []⟩ ⟨"uom", 1⟩ 0).2
      rfl).2
    exact ⟨r, hr⟩

end FineArt

namespace FineArt

variable {Ext : Type}

/-! ### Claim C4 -/

/-- C4: a successful transfer sets the token's owner to the validated
recipient and empties its approvals, while keeping its `token_uri` and
`extension`, every other token record, every operator grant, and every
config field unchanged. -/
theorem c4_transfer_frame {validate : String → Option Addr}
    {st : ContractState Ext} {env : BlockInfo} {info : MessageInfo}
    {recipient token_id : String} {st' : ContractState Ext}
    {tok' : TokenInfo Ext}
    (h : _transfer_nft validate st env info recipient token_id
      = .ok (st', tok')) :
    ∃ token recipient_addr,
      st.tokens.get token_id = some token ∧
      validate recipient = some recipient_addr ∧
      tok' = { token with owner := recipient_addr, approvals := [] } ∧
      tok'.token_uri = token.token_uri ∧
      tok'.extension = token.extension ∧
      st'.tokens.get token_id = some tok' ∧
      (∀ k, k ≠ token_id → st'.tokens.get k = st.tokens.get k) ∧
      st'.operators = st.operators ∧
      st'.minter = st.minter ∧
      st'.minting_allowed = st.minting_allowed ∧
      st'.max_mints = st.max_mints ∧
      st'.mint_price = st.mint_price ∧
      st'.token_uri = st.token_uri ∧
      st'.token_count = st.token_count := by
  obtain ⟨token, ra, htok, hcan, hval, hform, hst⟩ := _transfer_nft_ok h
  subst hst
  subst hform
  exact ⟨token, ra, htok, hval, rfl, rfl, rfl, KVMap.get_set_self _ _ _,
    fun k hk => KVMap.get_set_ne _ _ _ _ hk, rfl, rfl, rfl, rfl, rfl, rfl, rfl⟩

/-- Witness for C4: alice transfers token "0" (which carries an approval for
bob) to carol. -/
theorem c4_witness :
    ∃ (st' : ContractState Unit) (tok' token : TokenInfo Unit) (ra : Addr),
      _transfer_nft idValidate sampleState sampleEnv ⟨"alice", []⟩ "carol" "0"
        = .ok (st', tok') ∧
      sampleState.tokens.get "0" = some token ∧
      tok' = { token with owner := ra, approvals := [] } ∧
      st'.operators = sampleState.operators ∧
      st'.tokens.get "0" = some tok' := by
  obtain ⟨token, ra, htok, hval, hform, -, -, hget, hframe, hops, -⟩ :=
    c4_transfer_frame (show _transfer_nft idValidate sampleState sampleEnv
      ⟨"alice", []⟩ "carol" "0" = .ok (_, _) from rfl)
  exact ⟨_, _, token, ra, rfl, htok, hform, hops, hget⟩

/-! ### Claim C5 (corrected) -/

/-- C5 counterexample: with an already-elapsed expiration, `approve` by an
unauthorized caller fails with `Unauthorized`, not `Expired` — so "the
operation fails with Expired" does not hold for every caller. -/
theorem c5_counterexample :
    (Expiration.atHeight 1).is_expired sampleEnv = true ∧
    (sampleState.tokens.get "0").isSome = true ∧
    approve idValidate sampleState sampleEnv ⟨"mallory", []⟩ "bob" "0"
      (some (.atHeight 1)) = .error .Unauthorized ∧
    ContractError.Unauthorized ≠ ContractError.Expired := by
  refine ⟨rfl, rfl, rfl, ?_⟩
  intro hcontra
  cases hcontra

/-- C5 as amended: an omitted expiration resolves to "never" for both
`approve` and `approve-all`; `approve-all` with an elapsed resolved
expiration always fails with `Expired`; `approve` fails with `Expired` when
the token exists, the caller passes the can-approve check and the spender
validates (an earlier failing check yields its own error instead); every
failure leaves the stored state unchanged. -/
theorem c5_expired_rejected (validate : String → Option Addr)
    (st : ContractState Ext) (env : BlockInfo) (info : MessageInfo)
    (spender token_id operator : String) :
    (approve validate st env info spender token_id none
      = approve validate st env info spender token_id (some Expiration.never)) ∧
    (approve_all validate st env info operator none
      = approve_all validate st env info operator (some Expiration.never)) ∧
    (∀ e : Expiration, e.is_expired env = true →
      approve_all validate st env info operator (some e) = .error .Expired) ∧
    (∀ e : Expiration, e.is_expired env = true →
      ∀ token, st.tokens.get token_id = some token →
      check_can_approve st env info token = .ok () →
      ∀ sp, validate spender = some sp →
      approve validate st env info spender token_id (some e)
        = .error .Expired) := by
  refine ⟨?_, ?_, ?_, ?_⟩
  · simp [approve, _update_approvals, Expiration.default]
  · simp [approve_all, Expiration.default]
  · intro e he
    simp [approve_all, he]
  · intro e he token htok hcan sp hsp
    simp [approve, _update_approvals, htok, hcan, hsp, he]

/-- Witness for C5: the owner approving with an elapsed height fails with
`Expired`; `approve-all` likewise for any caller; omitted expirations equal
explicit "never". -/
theorem c5_witness :
    (approve idValidate sampleState sampleEnv ⟨"alice", []⟩ "bob" "0" none
      = approve idValidate sampleState sampleEnv ⟨"alice", []⟩ "bob" "0"
          (some Expiration.never)) ∧
    (approve_all idValidate sampleState sampleEnv ⟨"mallory", []⟩ "zoe"
        (some (.atHeight 1)) = .error .Expired) ∧
    (approve idValidate sampleState sampleEnv ⟨"alice", []⟩ "bob" "0"
        (some (.atHeight 1)) = .error .Expired) := by
  obtain ⟨hdef, -, hall, happ⟩ := c5_expired_rejected idValidate sampleState
    sampleEnv ⟨"alice", []⟩ "bob" "0" "zoe"
  refine ⟨hdef, ?_, ?_⟩
  · exact (c5_expired_rejected idValidate sampleState sampleEnv
      ⟨"mallory", []⟩ "bob" "0" "zoe").2.2.1 (.atHeight 1) rfl
  · exact happ (.atHeight 1) rfl sampleToken rfl rfl "bob" rfl

/-! ### Claim C9 -/

/-- C9: a successful send performs exactly the state change of the
corresponding transfer and additionally emits one receiver notification to
the destination carrying the caller, the token id and the payload; send and
transfer fail with the same errors. -/
theorem c9_send_is_transfer_plus_notice (validate : String → Option Addr)
    (st : ContractState Ext) (env : BlockInfo) (info : MessageInfo)
    (contract token_id msg : String) :
    (∀ st' r, send_nft validate st env info contract token_id msg
        = .ok (st', r) →
      (∃ r2, transfer_nft validate st env info contract token_id
        = .ok (st', r2) ∧ r2.messages = []) ∧
      r.messages = [⟨contract, info.sender, token_id, msg⟩]) ∧
    (∀ e, send_nft validate st env info contract token_id msg = .error e ↔
      transfer_nft validate st env info contract token_id = .error e) := by
  constructor
  · intro st' r h
    cases hu : _transfer_nft validate st env info contract token_id with
    | error e =>
      unfold send_nft at h
      rw [hu] at h
      simp at h
    | ok p =>
      obtain ⟨st1, tok1⟩ := p
      unfold send_nft at h
      rw [hu] at h
      simp only [Except.ok.injEq, Prod.mk.injEq] at h
      obtain ⟨hst, hr⟩ := h
      subst hst
      refine ⟨⟨⟨[], [("action", "transfer_nft"), ("sender", info.sender),
        ("recipient", contract), ("token_id", token_id)]⟩, ?_, rfl⟩, ?_⟩
      · unfold transfer_nft
        rw [hu]
      · rw [← hr]
  · intro e
    cases hu : _transfer_nft validate st env info contract token_id with
    | error e2 => simp [send_nft, transfer_nft, hu]
    | ok p =>
      obtain ⟨st1, tok1⟩ := p
      simp [send_nft, transfer_nft, hu]

/-- Witness for C9: alice sends token "0" to the "vault" contract with
payload "hi"; the notification carries alice, "0" and "hi". -/
theorem c9_witness :
    ∃ (st' : ContractState Unit) (r : Response),
      send_nft idValidate sampleState sampleEnv ⟨"alice", []⟩ "vault" "0" "hi"
        = .ok (st', r) ∧
      r.messages = [⟨"vault", "alice", "0", "hi"⟩] ∧
      (∃ r2, transfer_nft idValidate sampleState sampleEnv ⟨"alice", []⟩
        "vault" "0" = .ok (st', r2)) := by
  obtain ⟨⟨r2, htr, -⟩, hmsg⟩ :=
    (c9_send_is_transfer_plus_notice idValidate sampleState sampleEnv
      ⟨"alice", []⟩ "vault" "0" "hi").1 _ _ rfl
  exact ⟨_, _, rfl, hmsg, r2, htr⟩

/-! ### Claim C10 -/

/-- C10: a transfer by the owner naming the owner itself as recipient
succeeds, keeps the owner, and still clears the approvals list — a
self-transfer revokes all per-token approvals at once. -/
theorem c10_self_transfer_clears_approvals (validate : String → Option Addr)
    (st : ContractState Ext) (env : BlockInfo) (info : MessageInfo)
    (token_id : String) (token : TokenInfo Ext)
    (htok : st.tokens.get token_id = some token)
    (hown : info.sender = token.owner)
    (hval : validate token.owner = some token.owner) :
    ∃ st' r, transfer_nft validate st env info token.owner token_id
        = .ok (st', r) ∧
      st'.tokens.get token_id = some { token with approvals := [] } ∧
      ({ token with approvals := [] } : TokenInfo Ext).owner = token.owner := by
  have hcan : check_can_send st env info token = .ok () := by
    simp [check_can_send, hown]
  refine ⟨({ st with tokens :=
      (st.tokens.set token_id { token with approvals := [] }) }),
    ⟨[], [("action", "transfer_nft"), ("sender", info.sender),
      ("recipient", token.owner), ("token_id", token_id)]⟩, ?_, ?_, rfl⟩
  · simp [transfer_nft, _transfer_nft, htok, hcan, hval]
  · exact KVMap.get_set_self _ _ _

/-- Witness for C10: alice self-transfers token "0", wiping bob's
approval. -/
theorem c10_witness :
    ∃ (st' : ContractState Unit) (r : Response),
      transfer_nft idValidate sampleState sampleEnv ⟨"alice", []⟩ "alice" "0"
        = .ok (st', r) ∧
      st'.tokens.get "0" = some ⟨"alice", [], "ipfs://art", ()⟩ := by
  obtain ⟨st', r, htr, hget, -⟩ := c10_self_transfer_clears_approvals
    idValidate sampleState sampleEnv ⟨"alice", []⟩ "0" sampleToken rfl rfl rfl
  exact ⟨st', r, htr, hget⟩

end FineArt

namespace FineArt

variable {Ext : Type}

/-! ### Claim C1 -/

/-- C1: along every all-successful run from instantiation, `token_count`
equals the number of mints performed (burn does not decrement it), each
successful mint stores the new token under — and reports — the string of
the pre-mint counter, and the assigned ids `0, 1, 2, …` are pairwise
distinct, so a burned id is never reassigned. -/
theorem c1_mint_counter_and_ids (validate : String → Option Addr)
    (imsg : InstantiateMsg) (st0 stF : ContractState Ext)
    (steps : List (Step Ext)) (ids : List String)
    (hinst : instantiate validate imsg = some st0)
    (hrun : runTraceIds validate st0 steps = some (stF, ids)) :
    stF.token_count = countMints steps ∧
    ids = (List.range (countMints steps)).map Nat.repr ∧
    ids.Nodup ∧
    (∀ (st₁ : ContractState Ext) (info₁ : MessageInfo) (m : MintMsg Ext)
        (st₂ : ContractState Ext) (r : Response),
      mint validate st₁ info₁ m = .ok (st₂, r) →
      ("token_id", Nat.repr st₁.token_count) ∈ r.attributes ∧
      (∃ tok, st₂.tokens.get (Nat.repr st₁.token_count) = some tok) ∧
      st₂.token_count = st₁.token_count + 1) := by
  obtain ⟨htc0, -, -⟩ := instantiate_ok hinst
  obtain ⟨h1, h2, -⟩ := runTraceIds_ok steps st0 stF ids hrun
  rw [htc0] at h1 h2
  refine ⟨by omega, ?_, ?_, ?_⟩
  · rw [h2]
    apply List.map_congr_left
    intro a ha
    rw [Nat.zero_add]
  · rw [h2]
    refine List.Nodup.map ?_ (List.nodup_range _)
    intro a b hab
    have := repr_injective hab
    omega
  · intro st₁ info₁ m st₂ r hm
    obtain ⟨owner, hval, -, -, -, hfresh, hst, hr⟩ := mint_ok hm
    subst hst
    subst hr
    refine ⟨by simp, ⟨⟨owner, [], st₁.token_uri, m.extension⟩, ?_⟩, ?_⟩
    · simp only [update_token_count, if_true]
      exact KVMap.get_set_self _ _ _
    · simp [update_token_count]

/-- Witness for C1: mint, burn id "0", mint again — the counter ends at 2
and the ids are "0" then "1", with no reuse of the burned "0". -/
theorem c1_witness :
    ∃ (st0 stF : ContractState Unit) (ids : List String),
      instantiate idValidate traceImsg = some st0 ∧
      runTraceIds idValidate st0 c1Steps = some (stF, ids) ∧
      stF.token_count = countMints c1Steps ∧
      countMints c1Steps = 2 ∧
      ids = ["0", "1"] ∧
      ids.Nodup := by
  obtain ⟨h1, h2, h3, -⟩ := c1_mint_counter_and_ids idValidate traceImsg
    _ _ c1Steps _ rfl rfl
  refine ⟨_, _, _, rfl, rfl, h1, rfl, ?_, h3⟩
  rw [h2]
  rfl

/-! ### Claim C6 -/

/-- C6: after a successful approve the token holds exactly one approval
entry for the approved spender, carrying the new (resolved) expiration; and
in every state reachable from instantiation by successful calls, no token's
approvals list has two entries with the same spender. -/
theorem c6_approvals_unique (validate : String → Option Addr) :
    (∀ (st : ContractState Ext) (env : BlockInfo) (info : MessageInfo)
        (spender token_id : String) (expires : Option Expiration)
        (st' : ContractState Ext) (r : Response),
      approve validate st env info spender token_id expires = .ok (st', r) →
      ∃ sp tok', validate spender = some sp ∧
        st'.tokens.get token_id = some tok' ∧
        tok'.approvals.filter (fun a => a.spender == sp)
          = [⟨sp, expires.getD Expiration.default⟩]) ∧
    (∀ (imsg : InstantiateMsg) (st0 : ContractState Ext)
        (steps : List (Step Ext)) (st : ContractState Ext),
      instantiate validate imsg = some st0 →
      runTrace validate st0 steps = some st →
      approvalsUnique st) := by
  constructor
  · intro st env info spender token_id expires st' r h
    obtain ⟨tok1, hu⟩ := approve_ok h
    obtain ⟨token, sp, htok, hcan, hsp, hshape, hst⟩ := _update_approvals_ok hu
    rcases hshape with ⟨-, -, hform⟩ | ⟨hfalse, -⟩
    · subst hst
      subst hform
      refine ⟨sp, _, hsp, KVMap.get_set_self _ _ _, ?_⟩
      rw [List.filter_append]
      have hleft : (token.approvals.filter
          (fun a => ! (a.spender == sp))).filter (fun a => a.spender == sp)
            = [] := by
        rw [List.filter_filter]
        have : ∀ a : Approval,
            ((a.spender == sp) && ! (a.spender == sp)) = false := by
          intro a
          cases hq : a.spender == sp <;> simp [hq]
        simp only [this]
        exact List.filter_false _
      rw [hleft]
      simp
    · cases hfalse
  · intro imsg st0 steps st hinst hrun
    obtain ⟨-, htoks, -⟩ := instantiate_ok hinst
    unfold runTrace at hrun
    cases hq : runTraceIds validate st0 steps with
    | none => rw [hq] at hrun; simp at hrun
    | some q =>
      obtain ⟨stF, ids⟩ := q
      rw [hq] at hrun
      simp at hrun
      obtain ⟨-, -, h3⟩ := runTraceIds_ok steps st0 stF ids hq
      subst hrun
      apply h3
      intro k t hget
      rw [htoks] at hget
      simp [KVMap.empty, KVMap.get] at hget

/-- Witness for C6: alice re-approves bob (already approved forever) at a
new expiration — the result holds exactly one entry for bob, with the new
expiration; and the double-approve trace ends with unique approvals. -/
theorem c6_witness :
    (∃ (sp : Addr) (tok' : TokenInfo Unit), idValidate "bob" = some sp ∧
      (∃ st' r, approve idValidate sampleState sampleEnv ⟨"alice", []⟩ "bob"
          "0" (some (.atHeight 500)) = .ok (st', r) ∧
        st'.tokens.get "0" = some tok') ∧
      tok'.approvals.filter (fun a => a.spender == sp)
        = [⟨sp, .atHeight 500⟩]) ∧
    (∃ (st0 st : ContractState Unit),
      instantiate idValidate traceImsg = some st0 ∧
      runTrace idValidate st0 c6Steps = some st ∧
      approvalsUnique st) := by
  constructor
  · obtain ⟨sp, tok', hsp, hget, hfilter⟩ :=
      (c6_approvals_unique idValidate).1 sampleState sampleEnv ⟨"alice", []⟩
        "bob" "0" (some (.atHeight 500)) _ _ rfl
    exact ⟨sp, tok', hsp, ⟨_, _, rfl, hget⟩, hfilter⟩
  · exact ⟨_, _, rfl, rfl,
      (c6_approvals_unique idValidate).2 traceImsg _ c6Steps _ rfl rfl⟩

/-! ### Claim C8 -/

/-- C8: no operation ever returns `ApprovalNotFound` or `InsufficientFunds`;
in particular, revoke by an authorized caller with no matching approval
entry succeeds and leaves the token's approvals list unchanged. -/
theorem c8_reserved_errors_unused (validate : String → Option Addr)
    (st : ContractState Ext) (env : BlockInfo) (info : MessageInfo)
    (msg : ExecuteMsg Ext) (spender token_id : String) :
    (∀ e, execute validate st env info msg = .error e →
      (∀ s2, e ≠ .ApprovalNotFound s2) ∧ e ≠ .InsufficientFunds) ∧
    (∀ token sp, st.tokens.get token_id = some token →
      check_can_approve st env info token = .ok () →
      validate spender = some sp →
      (∀ a ∈ token.approvals, a.spender ≠ sp) →
      ∃ st' r, revoke validate st env info spender token_id = .ok (st', r) ∧
        st'.tokens.get token_id = some token) := by
  constructor
  · intro e he
    exact execute_err he
  · intro token sp htok hcan hsp hnone
    have hfilter : token.approvals.filter (fun apr => ! (apr.spender == sp))
        = token.approvals :=
      List.filter_eq_self.mpr (fun a ha => by simpa using hnone a ha)
    refine ⟨({ st with tokens := (st.tokens.set token_id token) }),
      ⟨[], [("action", "revoke"), ("sender", info.sender),
        ("spender", spender), ("token_id", token_id)]⟩, ?_,
      KVMap.get_set_self _ _ _⟩
    simp [revoke, _update_approvals, htok, hcan, hsp, hfilter]

/-- Witness for C8: a failed toggle yields `Unauthorized` (not a reserved
kind), and alice revoking the never-approved "zoe" on token "0" succeeds
without touching the list. -/
theorem c8_witness :
    ((∀ s2, ContractError.Unauthorized ≠ .ApprovalNotFound s2) ∧
      ContractError.Unauthorized ≠ .InsufficientFunds) ∧
    (∃ (st' : ContractState Unit) (r : Response),
      revoke idValidate sampleState sampleEnv ⟨"alice", []⟩ "zoe" "0"
        = .ok (st', r) ∧
      st'.tokens.get "0" = some sampleToken) := by
  constructor
  · exact (c8_reserved_errors_unused idValidate sampleState sampleEnv
      ⟨"mallory", []⟩ .ToggleMinting "zoe" "0").1 .Unauthorized rfl
  · exact (c8_reserved_errors_unused idValidate sampleState sampleEnv
      ⟨"alice", []⟩ .ToggleMinting "zoe" "0").2 sampleToken "zoe" rfl rfl rfl
        (by decide)

end FineArt
